import Mathlib

/-!
Verification of the GitHub-backed content layer (GitHubService, GitHubFileSystem,
content loader) against its natural-language specification.

Strings are modelled as lists of Unicode scalar values (`List Nat`), byte strings
as lists of naturals below 256.  The JS builtins used by readFile / writeFile
(encodeURIComponent, unescape, btoa, atob, escape, decodeURIComponent) are given
executable models following their ECMAScript / WHATWG semantics.
-/

namespace DeutschBuch

/-- A Unicode scalar value: a code point that is not a surrogate. -/
def ValidScalar (c : Nat) : Prop := c < 0x110000 ∧ (c < 0xD800 ∨ 0xDFFF < c)

instance (c : Nat) : Decidable (ValidScalar c) := by
  unfold ValidScalar; infer_instance

/-- UTF-8 encoding of one scalar value. -/
def utf8EncodeChar (c : Nat) : List Nat :=
  if c < 0x80 then [c]
  else if c < 0x800 then [0xC0 + c / 64, 0x80 + c % 64]
  else if c < 0x10000 then [0xE0 + c / 4096, 0x80 + c / 64 % 64, 0x80 + c % 64]
  else [0xF0 + c / 262144, 0x80 + c / 4096 % 64, 0x80 + c / 64 % 64, 0x80 + c % 64]

/-- UTF-8 encoding of a sequence of scalar values. -/
def utf8Encode : List Nat → List Nat
  | [] => []
  | c :: t => utf8EncodeChar c ++ utf8Encode t

/-- Uppercase hexadecimal digit character for a value below 16. -/
def hexDig (n : Nat) : Nat := if n ≤ 9 then n + 48 else n + 55

/-- Value of a hexadecimal digit character (either case), as in the URI builtins. -/
def hexVal (c : Nat) : Option Nat :=
  if 48 ≤ c ∧ c ≤ 57 then some (c - 48)
  else if 65 ≤ c ∧ c ≤ 70 then some (c - 55)
  else if 97 ≤ c ∧ c ≤ 102 then some (c - 87)
  else none

/-- Characters the legacy `escape` builtin leaves unescaped:
letters, digits, and the marks at-sign asterisk underscore plus minus dot slash. -/
def escapeSafe (c : Nat) : Bool :=
  (c ≥ 97 && c ≤ 122) || (c ≥ 65 && c ≤ 90) || (c ≥ 48 && c ≤ 57) ||
  c == 42 || c == 43 || c == 45 || c == 46 || c == 47 || c == 64 || c == 95

/-- `escape` on one UTF-16 code unit. -/
def escapeChar (c : Nat) : List Nat :=
  if escapeSafe c then [c]
  else if c < 256 then [37, hexDig (c / 16), hexDig (c % 16)]
  else [37, 117, hexDig (c / 4096 % 16), hexDig (c / 256 % 16), hexDig (c / 16 % 16), hexDig (c % 16)]

/-- The legacy `escape` builtin. -/
def escape : List Nat → List Nat
  | [] => []
  | c :: t => escapeChar c ++ escape t

/-- The legacy `unescape` builtin: decodes percent-u-4-hex and percent-2-hex
sequences, leaving everything else untouched. -/
def unescape : List Nat → List Nat
  | [] => []
  | 37 :: 117 :: a :: b :: d :: e :: rest =>
    match hexVal a, hexVal b, hexVal d, hexVal e with
    | some va, some vb, some vd, some ve =>
        (4096 * va + 256 * vb + 16 * vd + ve) :: unescape rest
    | _, _, _, _ => 37 :: unescape (117 :: a :: b :: d :: e :: rest)
  | 37 :: a :: b :: rest =>
    match hexVal a, hexVal b with
    | some va, some vb => (16 * va + vb) :: unescape rest
    | _, _ => 37 :: unescape (a :: b :: rest)
  | c :: rest => c :: unescape rest

/-- Characters `encodeURIComponent` leaves unescaped:
letters, digits, and minus underscore dot bang tilde asterisk quote parens. -/
def uriUnreserved (c : Nat) : Bool :=
  (c ≥ 97 && c ≤ 122) || (c ≥ 65 && c ≤ 90) || (c ≥ 48 && c ≤ 57) ||
  c == 33 || c == 39 || c == 40 || c == 41 || c == 42 || c == 45 ||
  c == 46 || c == 95 || c == 126

/-- Percent-escape of one byte, uppercase hex, as emitted by `encodeURIComponent`. -/
def pctByte (b : Nat) : List Nat := [37, hexDig (b / 16), hexDig (b % 16)]

/-- `encodeURIComponent` on one scalar value: unreserved characters pass through,
anything else is written as the percent-escapes of its UTF-8 bytes. -/
def encodeURIComponentChar (c : Nat) : List Nat :=
  if uriUnreserved c then [c]
  else (utf8EncodeChar c).foldr (fun b acc => pctByte b ++ acc) []

/-- `encodeURIComponent` on a string of scalar values. -/
def encodeURIComponent : List Nat → List Nat
  | [] => []
  | c :: t => encodeURIComponentChar c ++ encodeURIComponent t

/-- A token of a URI-encoded string: a literal character or a percent-escaped byte. -/
inductive Tok where
  | lit (c : Nat)
  | esc (b : Nat)
deriving DecidableEq, Repr

/-- First pass of `decodeURIComponent`: each percent sign must be followed by two
hex digits and yields an escaped byte token; any other character is a literal
token; a malformed escape throws (modelled as none). -/
def pctTokens : List Nat → Option (List Tok)
  | [] => some []
  | 37 :: a :: b :: rest =>
    match hexVal a, hexVal b with
    | some va, some vb => (pctTokens rest).map (Tok.esc (16 * va + vb) :: ·)
    | _, _ => none
  | c :: rest => if c = 37 then none else (pctTokens rest).map (Tok.lit c :: ·)

/-- Second pass of `decodeURIComponent`, one scalar value: a literal token passes
through; an escaped byte below 128 stands alone; an escaped lead byte must be
followed by the right number of escaped continuation bytes forming a
minimal-length, non-surrogate, in-range UTF-8 sequence; yields the scalar value
and the remaining tokens. -/
def decodeOne : List Tok → Option (Nat × List Tok)
  | [] => none
  | Tok.lit c :: rest => some (c, rest)
  | Tok.esc b0 :: rest =>
    if b0 < 0x80 then some (b0, rest)
    else if b0 < 0xC2 then none
    else if b0 < 0xE0 then
      match rest with
      | Tok.esc b1 :: rest2 =>
        if 0x80 ≤ b1 ∧ b1 < 0xC0 then some ((b0 - 0xC0) * 64 + b1 % 64, rest2)
        else none
      | _ => none
    else if b0 < 0xF0 then
      match rest with
      | Tok.esc b1 :: Tok.esc b2 :: rest2 =>
        if 0x80 ≤ b1 ∧ b1 < 0xC0 ∧ 0x80 ≤ b2 ∧ b2 < 0xC0 then
          if (b0 - 0xE0) * 4096 + b1 % 64 * 64 + b2 % 64 < 0x800 ∨
             (0xD800 ≤ (b0 - 0xE0) * 4096 + b1 % 64 * 64 + b2 % 64 ∧
              (b0 - 0xE0) * 4096 + b1 % 64 * 64 + b2 % 64 ≤ 0xDFFF) then none
          else some ((b0 - 0xE0) * 4096 + b1 % 64 * 64 + b2 % 64, rest2)
        else none
      | _ => none
    else if b0 < 0xF5 then
      match rest with
      | Tok.esc b1 :: Tok.esc b2 :: Tok.esc b3 :: rest2 =>
        if 0x80 ≤ b1 ∧ b1 < 0xC0 ∧ 0x80 ≤ b2 ∧ b2 < 0xC0 ∧ 0x80 ≤ b3 ∧ b3 < 0xC0 then
          if (b0 - 0xF0) * 262144 + b1 % 64 * 4096 + b2 % 64 * 64 + b3 % 64 < 0x10000 ∨
             0x110000 ≤ (b0 - 0xF0) * 262144 + b1 % 64 * 4096 + b2 % 64 * 64 + b3 % 64 then none
          else some ((b0 - 0xF0) * 262144 + b1 % 64 * 4096 + b2 % 64 * 64 + b3 % 64, rest2)
        else none
      | _ => none
    else none

/-- Second pass of `decodeURIComponent`, whole stream: decode scalar values one
after the other until the tokens are exhausted. -/
def decodeToks (toks : List Tok) : Option (List Nat) :=
  match toks with
  | [] => some []
  | t :: rest =>
    match h : decodeOne (t :: rest) with
    | some (c, rest2) => (decodeToks rest2).map (c :: ·)
    | none => none
termination_by toks.length
decreasing_by
  cases t with
  | lit c0 =>
    rw [show decodeOne (Tok.lit c0 :: rest) = some (c0, rest) from rfl] at h
    simp only [Option.some.injEq, Prod.mk.injEq] at h
    obtain ⟨h1, h2⟩ := h
    subst h2
    simp only [List.length_cons]
    omega
  | esc b0 =>
    simp only [decodeOne] at h
    by_cases hb1 : b0 < 0x80
    · rw [if_pos hb1] at h
      simp only [Option.some.injEq, Prod.mk.injEq] at h
      obtain ⟨h1, h2⟩ := h
      subst h2
      simp only [List.length_cons]
      omega
    · rw [if_neg hb1] at h
      by_cases hb2 : b0 < 0xC2
      · rw [if_pos hb2] at h
        simp at h
      · rw [if_neg hb2] at h
        by_cases hb3 : b0 < 0xE0
        · rw [if_pos hb3] at h
          rcases rest with _ | ⟨t1, r1⟩
          · simp at h
          · cases t1 with
            | lit x => simp at h
            | esc b1 =>
              (repeat split at h) <;> simp_all <;> omega
        · rw [if_neg hb3] at h
          by_cases hb4 : b0 < 0xF0
          · rw [if_pos hb4] at h
            rcases rest with _ | ⟨t1, r1⟩
            · simp at h
            · cases t1 with
              | lit x => simp at h
              | esc b1 =>
                rcases r1 with _ | ⟨t2, r2⟩
                · simp at h
                · cases t2 with
                  | lit x => simp at h
                  | esc b2 =>
                    (repeat split at h) <;> simp_all <;> omega
          · rw [if_neg hb4] at h
            by_cases hb5 : b0 < 0xF5
            · rw [if_pos hb5] at h
              rcases rest with _ | ⟨t1, r1⟩
              · simp at h
              · cases t1 with
                | lit x => simp at h
                | esc b1 =>
                  rcases r1 with _ | ⟨t2, r2⟩
                  · simp at h
                  · cases t2 with
                    | lit x => simp at h
                    | esc b2 =>
                      rcases r2 with _ | ⟨t3, r3⟩
                      · simp at h
                      · cases t3 with
                        | lit x => simp at h
                        | esc b3 =>
                          (repeat split at h) <;> simp_all <;> omega
            · rw [if_neg hb5] at h
              simp at h

/-- `decodeURIComponent`: percent-tokenize, then decode escaped UTF-8 sequences. -/
def decodeURIComponent (l : List Nat) : Option (List Nat) :=
  (pctTokens l).bind decodeToks

/-- Base64 alphabet character for a sextet value below 64. -/
def b64Char (n : Nat) : Nat :=
  if n < 26 then 65 + n
  else if n < 52 then 97 + (n - 26)
  else if n < 62 then 48 + (n - 52)
  else if n = 62 then 43 else 47

/-- Sextet value of a base64 alphabet character. -/
def b64Val (c : Nat) : Option Nat :=
  if 65 ≤ c ∧ c ≤ 90 then some (c - 65)
  else if 97 ≤ c ∧ c ≤ 122 then some (c - 97 + 26)
  else if 48 ≤ c ∧ c ≤ 57 then some (c - 48 + 52)
  else if c = 43 then some 62
  else if c = 47 then some 63
  else none

/-- `btoa` body: three bytes become four sextet characters, a final one or two
bytes are padded with equals signs. -/
def btoaChunks : List Nat → List Nat
  | [] => []
  | [b] => [b64Char (b / 4), b64Char (b % 4 * 16), 61, 61]
  | [b, c] => [b64Char (b / 4), b64Char (b % 4 * 16 + c / 16), b64Char (c % 16 * 4), 61]
  | b :: c :: d :: rest =>
      b64Char (b / 4) :: b64Char (b % 4 * 16 + c / 16) ::
      b64Char (c % 16 * 4 + d / 64) :: b64Char (d % 64) :: btoaChunks rest

/-- `btoa`: throws (none) when some character is above 255, else base64. -/
def btoa (l : List Nat) : Option (List Nat) :=
  if l.all (· < 256) then some (btoaChunks l) else none

/-- ASCII whitespace stripped by the forgiving base64 decode of `atob`. -/
def isAsciiWs (c : Nat) : Bool := c == 9 || c == 10 || c == 12 || c == 13 || c == 32

/-- `atob` body after whitespace stripping: full quads decode to three bytes,
a trailing pair or triple (optionally equals-padded) to one or two bytes;
a padding character anywhere else, a non-alphabet character, or a leftover
length of one is an error. -/
def atobChunks : List Nat → Option (List Nat)
  | [] => some []
  | [a, b] =>
    match b64Val a, b64Val b with
    | some va, some vb => some [va * 4 + vb / 16]
    | _, _ => none
  | [a, b, c] =>
    match b64Val a, b64Val b, b64Val c with
    | some va, some vb, some vc => some [va * 4 + vb / 16, vb % 16 * 16 + vc / 4]
    | _, _, _ => none
  | [a, b, c, d] =>
    if c = 61 then
      if d = 61 then
        match b64Val a, b64Val b with
        | some va, some vb => some [va * 4 + vb / 16]
        | _, _ => none
      else none
    else if d = 61 then
      match b64Val a, b64Val b, b64Val c with
      | some va, some vb, some vc => some [va * 4 + vb / 16, vb % 16 * 16 + vc / 4]
      | _, _, _ => none
    else
      match b64Val a, b64Val b, b64Val c, b64Val d with
      | some va, some vb, some vc, some vd =>
        some [va * 4 + vb / 16, vb % 16 * 16 + vc / 4, vc % 4 * 64 + vd]
      | _, _, _, _ => none
  | a :: b :: c :: d :: e :: rest =>
    match b64Val a, b64Val b, b64Val c, b64Val d with
    | some va, some vb, some vc, some vd =>
      (atobChunks (e :: rest)).map
        (fun t => (va * 4 + vb / 16) :: (vb % 16 * 16 + vc / 4) :: (vc % 4 * 64 + vd) :: t)
    | _, _, _, _ => none
  | _ => none

/-- `atob`: forgiving base64 decode, stripping ASCII whitespace first. -/
def atob (l : List Nat) : Option (List Nat) :=
  atobChunks (l.filter (fun c => !isAsciiWs c))

/-- The newline stripping readFile performs on the remote base64 payload. -/
def stripNewlines (l : List Nat) : List Nat := l.filter (fun c => c ≠ 10)

/-- The write-side encoding of writeFile: btoa (unescape (encodeURIComponent content)). -/
def writeFileEncode (s : List Nat) : Option (List Nat) :=
  btoa (unescape (encodeURIComponent s))

/-- The read-side decoding of readFile:
decodeURIComponent (escape (atob (data with newlines removed))). -/
def readFileDecode (data : List Nat) : Option (List Nat) :=
  (atob (stripNewlines data)).bind (fun bytes => decodeURIComponent (escape bytes))

/-- The token sequence `escape` produces for one UTF-8-encoded scalar value. -/
def tokChar (c : Nat) : List Tok :=
  if c < 0x80 then (if escapeSafe c then [Tok.lit c] else [Tok.esc c])
  else (utf8EncodeChar c).map Tok.esc

/-! ### Models of GitHubService, its remote API, the file system and the loader -/

/-- The user summary cached by authenticate. -/
structure GitHubUser where
  login : String
  avatar_url : String
  email : Option String
deriving DecidableEq, Repr

/-- Owner summary of a repository. -/
structure RepoOwner where
  login : String
  avatar_url : Option String
deriving DecidableEq, Repr

/-- The repository summary returned by listRepos and createRepo. -/
structure GitHubRepo where
  id : Nat
  name : String
  full_name : String
  «private» : Bool
  default_branch : String
  owner : RepoOwner
deriving DecidableEq, Repr

/-- The remote octokit endpoints the service calls. -/
inductive ApiCall where
  | getAuthenticated
  | listForAuthenticatedUser
  | createForAuthenticatedUser
  | getContent
  | createOrUpdateFileContents
  | getRef
  | getCommit
  | createTree
  | createCommit
  | updateRef
deriving DecidableEq, Repr

/-- The errors a service operation can surface: the unauthenticated guard, the
two translated readFile errors, an encode or decode throw from the JS builtins,
and any other remote error passed through unchanged with its HTTP status. -/
inductive SvcError where
  | notAuthenticated
  | notFound
  | isDirectory
  | encodingFailure
  | decodeFailure
  | transport (status : Nat)
deriving DecidableEq, Repr

/-- Shape of the data octokit getContent resolves with, as far as the client
inspects it: an array (directory listing), or an object with optional content
and sha fields. -/
inductive ContentData where
  | arr
  | obj (content : Option (List Nat)) (sha : Option String)
deriving DecidableEq, Repr

/-- The mutable fields of GitHubService. -/
structure ServiceState where
  octokit : Option Unit
  user : Option GitHubUser
deriving DecidableEq, Repr

/-- isAuthenticated: whether an API client is installed. -/
def isAuthenticated (st : ServiceState) : Bool := st.octokit.isSome

/-- getUser: the cached user. -/
def getUser (st : ServiceState) : Option GitHubUser := st.user

/-- authenticate(token): installs the client first, then performs the user
lookup; on lookup success caches the user, on failure re-raises while leaving
the client installed and the cached user unchanged. -/
def authenticate (st : ServiceState) (userLookup : Except Nat GitHubUser) :
    ServiceState × Except Nat GitHubUser × List ApiCall :=
  let st1 : ServiceState := { st with octokit := some () }
  match userLookup with
  | .ok u => ({ st1 with user := some u }, .ok u, [.getAuthenticated])
  | .error e => (st1, .error e, [.getAuthenticated])

/-- readFile: guard, then translate the remote getContent outcome: status 404
becomes notFound, a directory shape becomes the wrong-shape error (thrown in
the try block, re-thrown unchanged by the catch since it has no status), any
other remote error passes through; file content is base64-decoded and UTF-8
decoded. -/
def readFileModel (authed : Bool) (remote : Except Nat ContentData) :
    Except SvcError (List Nat) × List ApiCall :=
  if !authed then (.error .notAuthenticated, [])
  else
    match remote with
    | .error s =>
      if s = 404 then (.error .notFound, [.getContent])
      else (.error (.transport s), [.getContent])
    | .ok .arr => (.error .isDirectory, [.getContent])
    | .ok (.obj none _) => (.error .isDirectory, [.getContent])
    | .ok (.obj (some data) _) =>
      match readFileDecode data with
      | some s => (.ok s, [.getContent])
      | none => (.error .decodeFailure, [.getContent])

/-- The createOrUpdateFileContents call writeFile performs. -/
structure PutCall where
  content : List Nat
  sha : Option String
  message : String
deriving DecidableEq, Repr

/-- writeFile: guard, then look up the current object for the path; a 404 is
swallowed (new file, no sha), any other lookup error is re-raised before the
put call; a non-array object with a sha field supplies that sha; then the
content is encoded and sent. The ok value records the put call made. -/
def writeFileModel (authed : Bool) (lookup : Except Nat ContentData) (content : List Nat)
    (message : String) : Except SvcError PutCall × List ApiCall :=
  if !authed then (.error .notAuthenticated, [])
  else
    match lookup with
    | .error s =>
      if s = 404 then
        match writeFileEncode content with
        | some body => (.ok ⟨body, none, message⟩, [.getContent, .createOrUpdateFileContents])
        | none => (.error .encodingFailure, [.getContent])
      else (.error (.transport s), [.getContent])
    | .ok d =>
      match writeFileEncode content with
      | some body =>
        (.ok ⟨body, match d with | .arr => none | .obj _ sh => sh, message⟩,
         [.getContent, .createOrUpdateFileContents])
      | none => (.error .encodingFailure, [.getContent])

/-- listRepos: guard, then one remote listing call passed through. -/
def listReposModel (authed : Bool) (remote : Except Nat (List GitHubRepo)) :
    Except SvcError (List GitHubRepo) × List ApiCall :=
  if !authed then (.error .notAuthenticated, [])
  else
    match remote with
    | .ok repos => (.ok repos, [.listForAuthenticatedUser])
    | .error s => (.error (.transport s), [.listForAuthenticatedUser])

/-- createRepo: guard, then one remote creation call passed through. -/
def createRepoModel (authed : Bool) (remote : Except Nat GitHubRepo) :
    Except SvcError GitHubRepo × List ApiCall :=
  if !authed then (.error .notAuthenticated, [])
  else
    match remote with
    | .ok repo => (.ok repo, [.createForAuthenticatedUser])
    | .error s => (.error (.transport s), [.createForAuthenticatedUser])

/-- uploadImage: guard, base64-encode the raw bytes, one unconditional put,
then return the constructed raw URL. -/
def uploadImageModel (authed : Bool) (owner repo path : String) (bytes : List Nat)
    (branch : Option String) : Except SvcError String × List ApiCall :=
  if !authed then (.error .notAuthenticated, [])
  else
    match btoa bytes with
    | some _ =>
      (.ok ("https://raw.githubusercontent.com/" ++ owner ++ "/" ++ repo ++ "/" ++
        branch.getD "main" ++ "/" ++ path), [.createOrUpdateFileContents])
    | none => (.error .encodingFailure, [])

/-- File mode of a tree item. -/
inductive TreeMode where
  | m100644 | m100755 | m040000 | m160000 | m120000
deriving DecidableEq, Repr

/-- Object type of a tree item. -/
inductive TreeType where
  | blob | tree | commit
deriving DecidableEq, Repr

/-- A single entry destined for a commit: sha of some none models an explicit
null sha, which deletes the path. -/
structure TreeItem where
  path : String
  mode : TreeMode
  type : TreeType
  content : Option String
  sha : Option (Option String)
deriving DecidableEq, Repr

/-- A git commit object: tree hash, parent hashes, message. -/
structure GitCommit where
  tree : String
  parents : List String
  message : String
deriving DecidableEq, Repr

/-- Modelled from the spec: the remote git object store commitMulti talks to —
refs name commits, commits point at trees, trees are flat path-keyed listings;
fresh counts object hashes handed out. -/
structure GitObjStore where
  refs : List (String × String)
  commits : List (String × GitCommit)
  trees : List (String × List (String × TreeItem))
  fresh : Nat
deriving DecidableEq, Repr

/-- Association-list lookup. -/
def lookupA {α : Type} : List (String × α) → String → Option α
  | [], _ => none
  | (k, v) :: t, key => if k = key then some v else lookupA t key

/-- Association-list removal of one key. -/
def eraseKey {α : Type} : List (String × α) → String → List (String × α)
  | [], _ => []
  | (k, v) :: t, key => if k = key then eraseKey t key else (k, v) :: eraseKey t key

/-- Modelled from the spec: how the remote createTree applies one supplied tree
item to flat entries — an explicit null sha deletes the path, anything else
adds or replaces the entry at that path. -/
def applyTreeItem (entries : List (String × TreeItem)) (it : TreeItem) :
    List (String × TreeItem) :=
  match it.sha with
  | some none => eraseKey entries it.path
  | _ => eraseKey entries it.path ++ [(it.path, it)]

/-- Modelled from the spec: createTree layers the supplied items, in order, on
the base tree. -/
def layerTree (base : List (String × TreeItem)) (items : List TreeItem) :
    List (String × TreeItem) :=
  items.foldl applyTreeItem base

/-- A fresh object hash from the remote. -/
def freshSha (n : Nat) : String := "sha-" ++ toString n

/-- commitMulti: guard, then the five-call sequence — resolve the branch tip,
resolve its base tree, create the layered tree, create a commit with the tip
as sole parent and the given message, and point the branch ref at it.  The
remote git semantics are modelled from the spec; each call is recorded in
order. -/
def commitMultiModel (authed : Bool) (st : GitObjStore) (treeItems : List TreeItem)
    (message : String) (branch : String) :
    Except SvcError GitObjStore × List ApiCall :=
  if !authed then (.error .notAuthenticated, [])
  else
    match lookupA st.refs ("heads/" ++ branch) with
    | none => (.error (.transport 404), [.getRef])
    | some latestCommitSha =>
      match lookupA st.commits latestCommitSha with
      | none => (.error (.transport 404), [.getRef, .getCommit])
      | some commitData =>
        match lookupA st.trees commitData.tree with
        | none => (.error (.transport 404), [.getRef, .getCommit, .createTree])
        | some baseEntries =>
          (.ok
            { refs := ("heads/" ++ branch, freshSha (st.fresh + 1)) ::
                eraseKey st.refs ("heads/" ++ branch)
              commits := (freshSha (st.fresh + 1),
                ⟨freshSha st.fresh, [latestCommitSha], message⟩) :: st.commits
              trees := (freshSha st.fresh, layerTree baseEntries treeItems) :: st.trees
              fresh := st.fresh + 2 },
           [.getRef, .getCommit, .createTree, .createCommit, .updateRef])

/-- The owner, repo and branch a GitHubFileSystem is bound to. -/
structure GHBinding where
  owner : String
  repo : String
  branch : String
deriving DecidableEq, Repr

/-- The remote getContent outcome as a function of owner, repo, path, branch. -/
def Remote : Type := String → String → String → String → Except Nat ContentData

/-- GitHubFileSystem.readFile: delegates to the service readFile with the bound
owner, repo and branch. -/
def ghfsReadFile (gh : GHBinding) (authed : Bool) (remote : Remote) (path : String) :
    Except SvcError (List Nat) × List ApiCall :=
  readFileModel authed (remote gh.owner gh.repo path gh.branch)

/-- GitHubFileSystem.exists: attempt the same read and treat any failure at all
as false. -/
def ghfsExists (gh : GHBinding) (authed : Bool) (remote : Remote) (path : String) : Bool :=
  match (ghfsReadFile gh authed remote path).1 with
  | .ok _ => true
  | .error _ => false

/-- A node of the course outline. -/
inductive CourseItem where
  | node (title : String) (path : Option String) (items : Option (List CourseItem))

/-- The parsed course manifest. -/
structure CourseStructure where
  title : String
  structure' : List CourseItem

/-- What yaml.load can hand back once cast: a course structure, or any other
YAML value such as a bare scalar. -/
inductive YamlVal where
  | struct (c : CourseStructure)
  | other (raw : String)

/-- The file-system interface as the content loader uses it: exists and
readFile, each able to throw. -/
structure FSModel where
  fsExists : String → Except String Bool
  fsReadFile : String → Except String String

/-- The default structure returned when no manifest path exists. -/
def defaultCourse : CourseStructure := ⟨"New Course", []⟩

/-- The fixed structure returned when loading throws. -/
def errorCourse : CourseStructure := ⟨"Error Loading Course", []⟩

/-- loadCourseStructure with a file-system: probe the namespaced path, then the
legacy root path, with exists before readFile; parse the first hit as YAML;
default when neither exists; any throw anywhere yields the fixed error
structure. -/
def loadCourseStructureFS (fs : FSModel) (parseYaml : String → Except String YamlVal) :
    YamlVal :=
  match (do
    let b1 ← fs.fsExists "src/content/course.yaml"
    if b1 then do
      let content ← fs.fsReadFile "src/content/course.yaml"
      parseYaml content
    else do
      let b2 ← fs.fsExists "course.yaml"
      if b2 then do
        let content ← fs.fsReadFile "course.yaml"
        parseYaml content
      else pure (YamlVal.struct defaultCourse) : Except String YamlVal) with
  | .ok v => v
  | .error _ => YamlVal.struct errorCourse

/-- The JS String() coercion applied by js-yaml to its input: an absent module
value (undefined) coerces to the string "undefined". -/
def jsStringCoerce : Option String → String
  | none => "undefined"
  | some s => s

/-- loadCourseStructure without a file-system: look the manifest up among the
bundled modules and return the YAML parse of it directly — no default and no
catch in this branch. -/
def loadCourseStructureBundled (parseYaml : String → Except String YamlVal)
    (modules : String → Option String) : Except String YamlVal :=
  parseYaml (jsStringCoerce (modules "../content/course.yaml"))

/-- Modelled from js-yaml: a document that is one bare word parses to that word
as a scalar string, without throwing. -/
def yamlScalarParse : String → Except String YamlVal := fun s => .ok (.other s)

/-- List version of String.startsWith. -/
def startsWithL : List Char → List Char → Bool
  | _, [] => true
  | [], _ :: _ => false
  | c :: s, p :: ps => c == p && startsWithL s ps

/-- List version of String.endsWith. -/
def endsWithL (s pat : List Char) : Bool := startsWithL s.reverse pat.reverse

/-- JS String.replace with a string pattern and empty replacement: removes the
first occurrence of the pattern. -/
def replaceFirstL : List Char → List Char → List Char
  | [], _ => []
  | c :: rest, pat =>
    if startsWithL (c :: rest) pat then (c :: rest).drop pat.length
    else c :: replaceFirstL rest pat

/-- The namespaced content path fragment stripped by loadBundledFile. -/
def scNeedle : List Char := ("src/content/").toList

/-- The mdx extension stripped by loadBundledFile. -/
def mdxSuf : List Char := (".mdx").toList

/-- The path normalization of loadBundledFile as written: one leading slash
sliced off, then replace of the first namespaced-fragment occurrence guarded by
startsWith, then a trailing mdx extension sliced off. -/
def cleanPathL (path : List Char) : List Char :=
  let p1 := if startsWithL path ['/'] then path.drop 1 else path
  let p2 := if startsWithL p1 scNeedle then replaceFirstL p1 scNeedle else p1
  if endsWithL p2 mdxSuf then p2.take (p2.length - 4) else p2

/-- The normalization as the spec words it: drop a leading slash, drop a
leading namespaced fragment, drop a trailing mdx extension. -/
def specNormalize (path : List Char) : List Char :=
  let p1 := if startsWithL path ['/'] then path.drop 1 else path
  let p2 := if startsWithL p1 scNeedle then p1.drop scNeedle.length else p1
  if endsWithL p2 mdxSuf then p2.take (p2.length - 4) else p2

/-- loadBundledFile: normalize, then return the first of the two candidate
bundled locations present in the modules map, else none. -/
def loadBundledFile (modules : List Char → Option String) (path : List Char) :
    Option String :=
  match modules (("../content/").toList ++ cleanPathL path ++ (".mdx").toList) with
  | some v => some v
  | none => modules (("../content/").toList ++ cleanPathL path ++ ("/index.mdx").toList)

/-- The per-path effect the spec describes for the new tree: the last supplied
item for a path decides (an explicit null sha deletes, anything else replaces),
paths no item mentions keep their base entry. -/
def treeSpecGet (base : List (String × TreeItem)) (items : List TreeItem) (p : String) :
    Option TreeItem :=
  items.foldl (fun acc it =>
    if p = it.path then (match it.sha with | some none => none | _ => some it) else acc)
    (lookupA base p)

theorem hexVal_hexDig : ∀ n, n < 16 → hexVal (hexDig n) = some n := by decide

theorem utf8EncodeChar_lt_256 {c : Nat} (hc : c < 0x110000) :
    ∀ b ∈ utf8EncodeChar c, b < 256 := by
  intro b hb
  unfold utf8EncodeChar at hb
  split at hb
  · simp at hb; omega
  · split at hb
    · simp at hb; rcases hb with h | h <;> omega
    · split at hb
      · simp at hb; rcases hb with h | h | h <;> omega
      · simp at hb; rcases hb with h | h | h | h <;> omega

theorem escapeSafe_ge128 {c : Nat} (h : 128 ≤ c) : escapeSafe c = false := by
  simp [escapeSafe]; omega

theorem escapeSafe_ne37 {c : Nat} (h : escapeSafe c = true) : c ≠ 37 := by
  intro h37; subst h37; simp [escapeSafe] at h

theorem uriUnreserved_lt128 {c : Nat} (h : uriUnreserved c = true) : c < 128 := by
  simp [uriUnreserved] at h
  rcases h with h | h | h | h | h | h | h | h | h | h | h <;> omega

theorem uriUnreserved_ne37 {c : Nat} (h : uriUnreserved c = true) : c ≠ 37 := by
  intro h37; subst h37; simp [uriUnreserved] at h

theorem unescape_literal {c : Nat} (h : c ≠ 37) (rest : List Nat) :
    unescape (c :: rest) = c :: unescape rest := by
  rw [unescape.eq_def]
  split <;> simp_all

theorem unescape_pct {a b va vb : Nat} (ha : hexVal a = some va) (hb : hexVal b = some vb)
    (rest : List Nat) : unescape (37 :: a :: b :: rest) = (16 * va + vb) :: unescape rest := by
  have h117 : a ≠ 117 := by
    intro h; subst h; rw [show hexVal 117 = none from by decide] at ha; cases ha
  rw [unescape.eq_def]
  split
  · next heq => exact absurd heq (by simp)
  · rename_i heq
    injection heq with h1 heq2; injection heq2 with h2 _
    exact absurd h2 h117
  · rename_i heq
    injection heq with _ heq2; injection heq2 with h2 heq3; injection heq3 with h3 h4
    subst h2; subst h3; subst h4
    rw [ha, hb]
  · rename_i hno1 hno2 heq
    injection heq with h1 h2
    exact (hno2 a b rest h1.symm h2.symm).elim

theorem unescape_pctList {bs : List Nat} (hbs : ∀ b ∈ bs, b < 256) (rest : List Nat) :
    unescape ((bs.foldr (fun b acc => pctByte b ++ acc) []) ++ rest) = bs ++ unescape rest := by
  induction bs with
  | nil => simp
  | cons b t ih =>
    have hb : b < 256 := hbs b (by simp)
    have ht : ∀ x ∈ t, x < 256 := fun x hx => hbs x (by simp [hx])
    rw [List.foldr_cons, List.append_assoc]
    have hseg : ∀ X : List Nat, pctByte b ++ X = 37 :: hexDig (b / 16) :: hexDig (b % 16) :: X :=
      fun X => rfl
    rw [hseg]
    rw [unescape_pct (hexVal_hexDig _ (by omega)) (hexVal_hexDig _ (by omega))]
    rw [ih ht]
    simp only [List.cons_append]
    congr 1
    omega

theorem unescape_encChar {c : Nat} (hc : ValidScalar c) (rest : List Nat) :
    unescape (encodeURIComponentChar c ++ rest) = utf8EncodeChar c ++ unescape rest := by
  by_cases hu : uriUnreserved c
  · have hlt : c < 128 := uriUnreserved_lt128 hu
    simp only [encodeURIComponentChar, if_pos hu, List.cons_append, List.nil_append]
    rw [unescape_literal (uriUnreserved_ne37 hu)]
    have he : utf8EncodeChar c = [c] := by unfold utf8EncodeChar; rw [if_pos (by omega)]
    rw [he]; rfl
  · simp only [encodeURIComponentChar, if_neg hu]
    exact unescape_pctList (utf8EncodeChar_lt_256 hc.1) rest

theorem unescape_encodeURIComponent {s : List Nat} (hs : ∀ c ∈ s, ValidScalar c) :
    unescape (encodeURIComponent s) = utf8Encode s := by
  induction s with
  | nil => rfl
  | cons c t ih =>
    have hc := hs c (by simp)
    have ht : ∀ x ∈ t, ValidScalar x := fun x hx => hs x (by simp [hx])
    simp only [encodeURIComponent, utf8Encode]
    rw [unescape_encChar hc, ih ht]

theorem b64Val_b64Char : ∀ n, n < 64 → b64Val (b64Char n) = some n := by decide

theorem b64Char_ne_61 : ∀ n, n < 64 → b64Char n ≠ 61 := by decide

theorem b64Char_clean : ∀ n, n < 64 → b64Char n ≠ 10 ∧ isAsciiWs (b64Char n) = false := by decide

theorem btoaChunks_ne_nil (x : Nat) (t : List Nat) : btoaChunks (x :: t) ≠ [] := by
  rw [btoaChunks.eq_def]
  split <;> simp_all

theorem mulAddDiv {k : Nat} (x y : Nat) (hk : 0 < k) (hy : y < k) : (x * k + y) / k = x := by
  rw [Nat.mul_comm x k, Nat.mul_add_div hk, Nat.div_eq_of_lt hy]
  omega

theorem mulAddMod {k : Nat} (x y : Nat) (hy : y < k) : (x * k + y) % k = y := by
  rw [Nat.mul_comm x k, Nat.mul_add_mod, Nat.mod_eq_of_lt hy]

theorem mulDivCancelN {k : Nat} (x : Nat) (hk : 0 < k) : x * k / k = x := by
  have h := mulAddDiv (k := k) x 0 hk hk
  simpa using h

theorem atobChunks_btoaChunks : ∀ l : List Nat, (∀ b ∈ l, b < 256) →
    atobChunks (btoaChunks l) = some l := by
  intro l
  induction l using btoaChunks.induct with
  | case1 => intro _; rfl
  | case2 b =>
    intro hl
    have hb : b < 256 := hl b (by simp)
    simp only [btoaChunks, atobChunks]
    rw [if_pos trivial, if_pos trivial]
    rw [b64Val_b64Char _ (by omega), b64Val_b64Char _ (by omega)]
    simp only [Option.some.injEq, List.cons.injEq, and_true]
    rw [mulDivCancelN (b % 4) (by norm_num)]
    omega
  | case3 b c =>
    intro hl
    have hb : b < 256 := hl b (by simp)
    have hc : c < 256 := hl c (by simp)
    simp only [btoaChunks, atobChunks]
    rw [if_neg (b64Char_ne_61 _ (by omega)), if_pos trivial]
    rw [b64Val_b64Char _ (by omega), b64Val_b64Char _ (by omega), b64Val_b64Char _ (by omega)]
    simp only [Option.some.injEq, List.cons.injEq, and_true]
    refine ⟨?_, ?_⟩
    · rw [mulAddDiv (b % 4) (c / 16) (by norm_num) (by omega)]; omega
    · rw [mulAddMod (b % 4) (c / 16) (by omega), mulDivCancelN (c % 16) (by norm_num)]; omega
  | case4 b c d rest ih =>
    intro hl
    have hb : b < 256 := hl b (by simp)
    have hc : c < 256 := hl c (by simp)
    have hd : d < 256 := hl d (by simp)
    have hrest : ∀ x ∈ rest, x < 256 := fun x hx => hl x (by simp [hx])
    match rest with
    | [] =>
      simp only [btoaChunks, atobChunks]
      rw [if_neg (b64Char_ne_61 _ (by omega)), if_neg (b64Char_ne_61 _ (by omega))]
      rw [b64Val_b64Char _ (by omega), b64Val_b64Char _ (by omega),
          b64Val_b64Char _ (by omega), b64Val_b64Char _ (by omega)]
      simp only [Option.some.injEq, List.cons.injEq, and_true]
      refine ⟨?_, ?_, ?_⟩
      · rw [mulAddDiv (b % 4) (c / 16) (by norm_num) (by omega)]; omega
      · rw [mulAddMod (b % 4) (c / 16) (by omega),
            mulAddDiv (c % 16) (d / 64) (by norm_num) (by omega)]; omega
      · rw [mulAddMod (c % 16) (d / 64) (by omega)]; omega
    | r :: rs =>
      obtain ⟨h, t, hht⟩ := List.exists_cons_of_ne_nil (btoaChunks_ne_nil r rs)
      have hstep : btoaChunks (b :: c :: d :: r :: rs) =
          b64Char (b / 4) :: b64Char (b % 4 * 16 + c / 16) ::
          b64Char (c % 16 * 4 + d / 64) :: b64Char (d % 64) :: h :: t := by
        rw [btoaChunks.eq_def]
        simp only [hht]
      rw [hstep]
      simp only [atobChunks]
      rw [b64Val_b64Char _ (by omega), b64Val_b64Char _ (by omega),
          b64Val_b64Char _ (by omega), b64Val_b64Char _ (by omega)]
      rw [← hht, ih hrest]
      simp only [Option.map_some', Option.some.injEq, List.cons.injEq, and_true]
      refine ⟨?_, ?_, ?_⟩
      · rw [mulAddDiv (b % 4) (c / 16) (by norm_num) (by omega)]; omega
      · rw [mulAddMod (b % 4) (c / 16) (by omega),
            mulAddDiv (c % 16) (d / 64) (by norm_num) (by omega)]; omega
      · rw [mulAddMod (c % 16) (d / 64) (by omega)]; omega

theorem escape_append (l1 l2 : List Nat) : escape (l1 ++ l2) = escape l1 ++ escape l2 := by
  induction l1 with
  | nil => rfl
  | cons b bs ih =>
    show escapeChar b ++ escape (bs ++ l2) = escapeChar b ++ escape bs ++ escape l2
    rw [ih, List.append_assoc]

theorem escape_unsafe_byte (b : Nat) (h1 : 128 ≤ b) (h2 : b < 256) (t : List Nat) :
    escape (b :: t) = 37 :: hexDig (b / 16) :: hexDig (b % 16) :: escape t := by
  simp [escape, escapeChar, escapeSafe_ge128 h1, h2]

theorem pctTokens_lit {c : Nat} (h : c ≠ 37) (rest : List Nat) :
    pctTokens (c :: rest) = (pctTokens rest).map (Tok.lit c :: ·) := by
  rw [pctTokens.eq_def]
  split
  · rename_i heq; exact absurd heq (by simp)
  · rename_i heq
    injection heq with h1 _
    exact absurd h1 h
  · rename_i hno heq
    injection heq with h1 h2
    subst h1; subst h2
    rw [if_neg h]

theorem pctTokens_esc (b : Nat) (hb : b < 256) (rest : List Nat) :
    pctTokens (37 :: hexDig (b / 16) :: hexDig (b % 16) :: rest) =
      (pctTokens rest).map (Tok.esc b :: ·) := by
  have h1 : hexVal (hexDig (b / 16)) = some (b / 16) := hexVal_hexDig _ (by omega)
  have h2 : hexVal (hexDig (b % 16)) = some (b % 16) := hexVal_hexDig _ (by omega)
  simp only [pctTokens, h1, h2]
  rw [show 16 * (b / 16) + b % 16 = b from by omega]

theorem pctTokens_escBytes (bs : List Nat) (hall : ∀ b ∈ bs, 128 ≤ b ∧ b < 256)
    (tail : List Nat) :
    pctTokens (escape bs ++ tail) = (pctTokens tail).map (bs.map Tok.esc ++ ·) := by
  induction bs with
  | nil =>
    show pctTokens tail = (pctTokens tail).map (List.map Tok.esc [] ++ ·)
    cases pctTokens tail <;> simp
  | cons b bs ih =>
    have hb := hall b (by simp)
    have hbs : ∀ x ∈ bs, 128 ≤ x ∧ x < 256 := fun x hx => hall x (by simp [hx])
    rw [show escape (b :: bs) ++ tail =
        37 :: hexDig (b / 16) :: hexDig (b % 16) :: (escape bs ++ tail) from by
      rw [escape_unsafe_byte b hb.1 hb.2]; rfl]
    rw [pctTokens_esc b hb.2, ih hbs]
    cases pctTokens tail <;> simp

theorem utf8EncodeChar_hi {c : Nat} (hlt : c < 0x110000) (h1 : ¬c < 0x80) :
    ∀ b ∈ utf8EncodeChar c, 128 ≤ b ∧ b < 256 := by
  intro b hb
  refine ⟨?_, utf8EncodeChar_lt_256 hlt b hb⟩
  unfold utf8EncodeChar at hb
  rw [if_neg h1] at hb
  split at hb
  · simp at hb; rcases hb with h | h <;> omega
  · split at hb
    · simp at hb; rcases hb with h | h | h <;> omega
    · simp at hb; rcases hb with h | h | h | h <;> omega

theorem pctTokens_escape_char {c : Nat} (hval : ValidScalar c) (tail : List Nat) :
    pctTokens (escape (utf8EncodeChar c) ++ tail) =
      (pctTokens tail).map (tokChar c ++ ·) := by
  obtain ⟨hlt, hsur⟩ := hval
  by_cases h1 : c < 0x80
  · rw [show utf8EncodeChar c = [c] from by unfold utf8EncodeChar; rw [if_pos h1]]
    by_cases hs : escapeSafe c
    · rw [show escape [c] = [c] from by simp [escape, escapeChar, hs]]
      rw [show ([c] : List Nat) ++ tail = c :: tail from rfl]
      rw [pctTokens_lit (escapeSafe_ne37 hs)]
      simp [tokChar, h1, hs]
    · rw [show escape [c] = [37, hexDig (c / 16), hexDig (c % 16)] from by
        simp [escape, escapeChar, hs, show c < 256 from by omega]]
      simp only [List.cons_append, List.nil_append]
      rw [pctTokens_esc c (by omega)]
      simp [tokChar, h1, hs]
  · rw [pctTokens_escBytes (utf8EncodeChar c) (utf8EncodeChar_hi hlt h1) tail]
    rw [show tokChar c = (utf8EncodeChar c).map Tok.esc from by unfold tokChar; rw [if_neg h1]]

theorem decodeToks_nil : decodeToks [] = some [] := by rw [decodeToks]

theorem decodeToks_of_decodeOne {t : Tok} {rest : List Tok} {c : Nat} {r2 : List Tok}
    (h : decodeOne (t :: rest) = some (c, r2)) :
    decodeToks (t :: rest) = (decodeToks r2).map (c :: ·) := by
  rw [decodeToks]
  split
  · rename_i c' r2' heq
    rw [heq] at h
    injection h with h2
    injection h2 with h3 h4
    subst h3; subst h4
    rfl
  · rename_i heq
    rw [heq] at h
    cases h

theorem decodeToks_tokChar {c : Nat} (hval : ValidScalar c) (toks : List Tok) :
    decodeToks (tokChar c ++ toks) = (decodeToks toks).map (c :: ·) := by
  obtain ⟨hlt, hsur⟩ := hval
  by_cases h1 : c < 0x80
  · unfold tokChar
    rw [if_pos h1]
    by_cases hs : escapeSafe c
    · rw [if_pos hs]
      exact decodeToks_of_decodeOne rfl
    · rw [if_neg hs]
      refine decodeToks_of_decodeOne ?_
      simp only [decodeOne]
      rw [if_pos h1]
      rfl
  · rw [show tokChar c = (utf8EncodeChar c).map Tok.esc from by unfold tokChar; rw [if_neg h1]]
    by_cases h2 : c < 0x800
    · rw [show utf8EncodeChar c = [0xC0 + c / 64, 0x80 + c % 64] from by
        unfold utf8EncodeChar; rw [if_neg (by omega), if_pos h2]]
      simp only [List.map_cons, List.map_nil, List.cons_append, List.nil_append]
      refine decodeToks_of_decodeOne ?_
      simp only [decodeOne]
      rw [if_neg (by omega), if_neg (by omega), if_pos (by omega), if_pos (by omega)]
      rw [show (0xC0 + c / 64 - 0xC0) * 64 + (0x80 + c % 64) % 64 = c from by omega]
    · by_cases h3 : c < 0x10000
      · rw [show utf8EncodeChar c = [0xE0 + c / 4096, 0x80 + c / 64 % 64, 0x80 + c % 64] from by
          unfold utf8EncodeChar; rw [if_neg (by omega), if_neg (by omega), if_pos h3]]
        simp only [List.map_cons, List.map_nil, List.cons_append, List.nil_append]
        refine decodeToks_of_decodeOne ?_
        simp only [decodeOne]
        rw [if_neg (by omega), if_neg (by omega), if_neg (by omega), if_pos (by omega),
            if_pos (by omega), if_neg (by omega)]
        rw [show (0xE0 + c / 4096 - 0xE0) * 4096 + (0x80 + c / 64 % 64) % 64 * 64 +
            (0x80 + c % 64) % 64 = c from by omega]
      · rw [show utf8EncodeChar c =
            [0xF0 + c / 262144, 0x80 + c / 4096 % 64, 0x80 + c / 64 % 64, 0x80 + c % 64] from by
          unfold utf8EncodeChar; rw [if_neg (by omega), if_neg (by omega), if_neg (by omega)]]
        simp only [List.map_cons, List.map_nil, List.cons_append, List.nil_append]
        refine decodeToks_of_decodeOne ?_
        simp only [decodeOne]
        rw [if_neg (by omega), if_neg (by omega), if_neg (by omega), if_neg (by omega),
            if_pos (by omega), if_pos (by omega), if_neg (by omega)]
        rw [show (0xF0 + c / 262144 - 0xF0) * 262144 + (0x80 + c / 4096 % 64) % 64 * 4096 +
            (0x80 + c / 64 % 64) % 64 * 64 + (0x80 + c % 64) % 64 = c from by omega]

theorem decodeURIComponent_escape_utf8 {s : List Nat} (hs : ∀ c ∈ s, ValidScalar c) :
    decodeURIComponent (escape (utf8Encode s)) = some s := by
  suffices h : pctTokens (escape (utf8Encode s)) =
      some (s.foldr (fun c acc => tokChar c ++ acc) []) ∧
      decodeToks (s.foldr (fun c acc => tokChar c ++ acc) []) = some s by
    unfold decodeURIComponent
    rw [h.1]
    exact h.2
  induction s with
  | nil => exact ⟨rfl, decodeToks_nil⟩
  | cons c t ih =>
    have hc := hs c (by simp)
    have ht : ∀ x ∈ t, ValidScalar x := fun x hx => hs x (by simp [hx])
    obtain ⟨ih1, ih2⟩ := ih ht
    constructor
    · rw [show utf8Encode (c :: t) = utf8EncodeChar c ++ utf8Encode t from rfl]
      rw [escape_append, pctTokens_escape_char ⟨(hc).1, (hc).2⟩, ih1]
      rfl
    · rw [List.foldr_cons, decodeToks_tokChar ⟨(hc).1, (hc).2⟩, ih2]
      rfl

theorem utf8Encode_lt_256 {s : List Nat} (hs : ∀ c ∈ s, ValidScalar c) :
    ∀ b ∈ utf8Encode s, b < 256 := by
  induction s with
  | nil => simp [utf8Encode]
  | cons c t ih =>
    intro b hb
    rw [show utf8Encode (c :: t) = utf8EncodeChar c ++ utf8Encode t from rfl] at hb
    rcases List.mem_append.mp hb with h | h
    · exact utf8EncodeChar_lt_256 (hs c (by simp)).1 b h
    · exact ih (fun x hx => hs x (by simp [hx])) b h

theorem btoaChunks_clean : ∀ l : List Nat, (∀ b ∈ l, b < 256) →
    ∀ x ∈ btoaChunks l, x ≠ 10 ∧ isAsciiWs x = false := by
  have h61 : (61 : Nat) ≠ 10 ∧ isAsciiWs 61 = false := by decide
  intro l
  induction l using btoaChunks.induct with
  | case1 => intro _ x hx; simp [btoaChunks] at hx
  | case2 b =>
    intro hl x hx
    have hb : b < 256 := hl b (by simp)
    simp only [btoaChunks, List.mem_cons, List.not_mem_nil, or_false] at hx
    rcases hx with h | h | h | h <;> subst h
    · exact b64Char_clean _ (by omega)
    · exact b64Char_clean _ (by omega)
    · exact h61
    · exact h61
  | case3 b c =>
    intro hl x hx
    have hb : b < 256 := hl b (by simp)
    have hc : c < 256 := hl c (by simp)
    simp only [btoaChunks, List.mem_cons, List.not_mem_nil, or_false] at hx
    rcases hx with h | h | h | h <;> subst h
    · exact b64Char_clean _ (by omega)
    · exact b64Char_clean _ (by omega)
    · exact b64Char_clean _ (by omega)
    · exact h61
  | case4 b c d rest ih =>
    intro hl x hx
    have hb : b < 256 := hl b (by simp)
    have hc : c < 256 := hl c (by simp)
    have hd : d < 256 := hl d (by simp)
    rw [show btoaChunks (b :: c :: d :: rest) =
        b64Char (b / 4) :: b64Char (b % 4 * 16 + c / 16) ::
        b64Char (c % 16 * 4 + d / 64) :: b64Char (d % 64) :: btoaChunks rest from by
      rw [btoaChunks.eq_def]] at hx
    simp only [List.mem_cons] at hx
    rcases hx with h | h | h | h | h
    · subst h; exact b64Char_clean _ (by omega)
    · subst h; exact b64Char_clean _ (by omega)
    · subst h; exact b64Char_clean _ (by omega)
    · subst h; exact b64Char_clean _ (by omega)
    · exact ih (fun y hy => hl y (by simp [hy])) x h

theorem writeFileEncode_eq {s : List Nat} (hs : ∀ c ∈ s, ValidScalar c) :
    writeFileEncode s = some (btoaChunks (utf8Encode s)) := by
  unfold writeFileEncode btoa
  rw [unescape_encodeURIComponent hs]
  rw [if_pos]
  exact List.all_eq_true.mpr (fun x hx => decide_eq_true (utf8Encode_lt_256 hs x hx))

theorem readFileDecode_writeFileEncode {s : List Nat} (hs : ∀ c ∈ s, ValidScalar c) :
    readFileDecode (btoaChunks (utf8Encode s)) = some s := by
  have hbytes : ∀ b ∈ utf8Encode s, b < 256 := utf8Encode_lt_256 hs
  have hclean := btoaChunks_clean (utf8Encode s) hbytes
  unfold readFileDecode
  rw [show stripNewlines (btoaChunks (utf8Encode s)) = btoaChunks (utf8Encode s) from
    List.filter_eq_self.mpr (fun x hx => decide_eq_true (hclean x hx).1)]
  unfold atob
  rw [show (btoaChunks (utf8Encode s)).filter (fun c => !isAsciiWs c) =
      btoaChunks (utf8Encode s) from
    List.filter_eq_self.mpr (fun x hx => by rw [(hclean x hx).2]; rfl)]
  rw [atobChunks_btoaChunks _ hbytes]
  exact decodeURIComponent_escape_utf8 hs

theorem readFileModel_authed_shape (r : Except Nat ContentData) :
    (readFileModel true r).2 = [ApiCall.getContent] ∧
    (readFileModel true r).1 ≠ .error .notAuthenticated := by
  cases r with
  | error s =>
    by_cases h : s = 404 <;> simp [readFileModel, h]
  | ok d =>
    match d with
    | .arr => simp [readFileModel]
    | .obj none sh => simp [readFileModel]
    | .obj (some data) sh =>
      cases h : readFileDecode data <;> simp [readFileModel, h]

/-- Claim C1: for every valid UTF-8 string, the write-side encoding
btoa(unescape(encodeURIComponent(content))) succeeds with a base64 body, the
read-side decoding decodeURIComponent(escape(atob(data))) inverts it, writeFile
sends exactly that body, and readFile on that body returns the original
content. -/
theorem c1_utf8_roundtrip (content : List Nat) (hval : ∀ c ∈ content, ValidScalar c) :
    ∃ body,
      writeFileEncode content = some body ∧
      readFileDecode body = some content ∧
      (∀ message, (writeFileModel true (.error 404) content message).1 =
        .ok ⟨body, none, message⟩) ∧
      (∀ sha, (readFileModel true (.ok (.obj (some body) sha))).1 = .ok content) := by
  refine ⟨btoaChunks (utf8Encode content), writeFileEncode_eq hval,
    readFileDecode_writeFileEncode hval, ?_, ?_⟩
  · intro message
    simp [writeFileModel, writeFileEncode_eq hval]
  · intro sha
    simp [readFileModel, readFileDecode_writeFileEncode hval]

theorem c1_utf8_roundtrip_witness :
    (∀ c ∈ ([70, 252, 223, 101, 32, 128512] : List Nat), ValidScalar c) ∧
    ∃ body,
      writeFileEncode [70, 252, 223, 101, 32, 128512] = some body ∧
      readFileDecode body = some [70, 252, 223, 101, 32, 128512] ∧
      (∀ message, (writeFileModel true (.error 404) [70, 252, 223, 101, 32, 128512]
        message).1 = .ok ⟨body, none, message⟩) ∧
      (∀ sha, (readFileModel true (.ok (.obj (some body) sha))).1 =
        .ok [70, 252, 223, 101, 32, 128512]) :=
  ⟨by decide, c1_utf8_roundtrip _ (by decide)⟩

/-- Claim C2: writeFile on an authenticated service: a successful lookup of a
file object puts with that object sha; a 404 lookup puts with no sha (a
create); any other lookup error is re-raised and no put call happens. -/
theorem c2_writeFile_sha_flow (content body : List Nat) (message : String)
    (henc : writeFileEncode content = some body) :
    (∀ cnt sha, writeFileModel true (.ok (.obj cnt (some sha))) content message =
      (.ok ⟨body, some sha, message⟩, [.getContent, .createOrUpdateFileContents])) ∧
    (writeFileModel true (.error 404) content message =
      (.ok ⟨body, none, message⟩, [.getContent, .createOrUpdateFileContents])) ∧
    (∀ s, s ≠ 404 → writeFileModel true (.error s) content message =
      (.error (.transport s), [.getContent]) ∧
      ApiCall.createOrUpdateFileContents ∉ (writeFileModel true (.error s) content message).2) := by
  refine ⟨?_, ?_, ?_⟩
  · intro cnt sha
    simp [writeFileModel, henc]
  · simp [writeFileModel, henc]
  · intro s hs
    simp [writeFileModel, henc, hs]

theorem c2_writeFile_sha_flow_witness :
    writeFileEncode [72] = some [83, 65, 61, 61] ∧
    ((∀ cnt sha, writeFileModel true (.ok (.obj cnt (some sha))) [72] "m" =
      (.ok ⟨[83, 65, 61, 61], some sha, "m"⟩, [.getContent, .createOrUpdateFileContents])) ∧
    (writeFileModel true (.error 404) [72] "m" =
      (.ok ⟨[83, 65, 61, 61], none, "m"⟩, [.getContent, .createOrUpdateFileContents])) ∧
    (∀ s, s ≠ 404 → writeFileModel true (.error s) [72] "m" =
      (.error (.transport s), [.getContent]) ∧
      ApiCall.createOrUpdateFileContents ∉ (writeFileModel true (.error s) [72] "m").2)) :=
  ⟨by decide, c2_writeFile_sha_flow [72] [83, 65, 61, 61] "m" (by decide)⟩

/-- Claim C3: readFile on an authenticated service: remote 404 becomes the
not-found error, a directory shape (array, or object without content) becomes
the is-a-directory error, any other remote error passes through with its
status, and the three failure kinds are pairwise distinct. -/
theorem c3_readFile_errors :
    ((readFileModel true (.error 404)).1 = .error .notFound ∧
     (readFileModel true (.ok .arr)).1 = .error .isDirectory ∧
     (∀ sh, (readFileModel true (.ok (.obj none sh))).1 = .error .isDirectory) ∧
     (∀ s, s ≠ 404 → (readFileModel true (.error s)).1 = .error (.transport s))) ∧
    (SvcError.notFound ≠ SvcError.isDirectory ∧
     (∀ s, SvcError.transport s ≠ SvcError.notFound) ∧
     (∀ s, SvcError.transport s ≠ SvcError.isDirectory)) := by
  refine ⟨⟨by simp [readFileModel], by simp [readFileModel], ?_, ?_⟩, by simp, by simp, by simp⟩
  · intro sh
    simp [readFileModel]
  · intro s hs
    simp [readFileModel, hs]

theorem c3_readFile_errors_witness :
    (500 ≠ 404) ∧ (readFileModel true (.error 500)).1 = .error (.transport 500) :=
  ⟨by decide, c3_readFile_errors.1.2.2.2 500 (by decide)⟩

/-- Claim C4: GitHubFileSystem.exists is true exactly when readFile at the same
owner, repo, path and branch succeeds, and is false for every failing read no
matter the failure reason. -/
theorem c4_exists_iff_read (gh : GHBinding) (authed : Bool) (remote : Remote) (path : String) :
    (ghfsExists gh authed remote path = true ↔
      ∃ s, (ghfsReadFile gh authed remote path).1 = Except.ok s) ∧
    ∀ e, (ghfsReadFile gh authed remote path).1 = Except.error e →
      ghfsExists gh authed remote path = false := by
  unfold ghfsExists
  constructor
  · cases h : (ghfsReadFile gh authed remote path).1 <;> simp [h]
  · intro e he
    rw [he]

theorem c4_exists_iff_read_witness :
    (ghfsReadFile ⟨"o", "r", "b"⟩ true (fun _ _ _ _ => .error 500) "p").1 =
      Except.error (SvcError.transport 500) ∧
    ghfsExists ⟨"o", "r", "b"⟩ true (fun _ _ _ _ => .error 500) "p" = false :=
  ⟨rfl, (c4_exists_iff_read ⟨"o", "r", "b"⟩ true (fun _ _ _ _ => .error 500) "p").2
    (SvcError.transport 500) rfl⟩

/-- Claim C9: every data operation of the service other than isAuthenticated —
listRepos, createRepo, readFile, writeFile, uploadImage, commitMulti — fails
with the Not authenticated error and performs no remote call when no client is
installed. -/
theorem c9_unauthenticated_guard :
    (∀ r, listReposModel false r = (.error .notAuthenticated, [])) ∧
    (∀ r, createRepoModel false r = (.error .notAuthenticated, [])) ∧
    (∀ r, readFileModel false r = (.error .notAuthenticated, [])) ∧
    (∀ l c m, writeFileModel false l c m = (.error .notAuthenticated, [])) ∧
    (∀ o rp p b br, uploadImageModel false o rp p b br = (.error .notAuthenticated, [])) ∧
    (∀ st ti m br, commitMultiModel false st ti m br = (.error .notAuthenticated, [])) := by
  refine ⟨fun r => ?_, fun r => ?_, fun r => ?_, fun l c m => ?_, fun o rp p b br => ?_,
    fun st ti m br => ?_⟩ <;> rfl

/-- Claim C10: authenticate is not atomic on failure — the client is installed
before the user lookup, so a failing lookup propagates its error yet leaves
isAuthenticated true and getUser null, and subsequent data operations pass the
unauthenticated guard and reach the remote. -/
theorem c10_authenticate_not_atomic (st : ServiceState) (e : Nat) (hu : st.user = none) :
    (authenticate st (.error e)).2.1 = .error e ∧
    isAuthenticated (authenticate st (.error e)).1 = true ∧
    getUser (authenticate st (.error e)).1 = none ∧
    (∀ remote, (readFileModel (isAuthenticated (authenticate st (.error e)).1) remote).1 ≠
      .error .notAuthenticated) ∧
    (∀ remote, (readFileModel (isAuthenticated (authenticate st (.error e)).1) remote).2 =
      [.getContent]) := by
  have hauth : isAuthenticated (authenticate st (.error e)).1 = true := by
    simp [authenticate, isAuthenticated]
  refine ⟨by simp [authenticate], hauth, by simp [authenticate, getUser, hu], ?_, ?_⟩
  · intro remote
    rw [hauth]
    exact (readFileModel_authed_shape remote).2
  · intro remote
    rw [hauth]
    exact (readFileModel_authed_shape remote).1

theorem c10_authenticate_not_atomic_witness :
    (({ octokit := none, user := none } : ServiceState).user = none) ∧
    ((authenticate ⟨none, none⟩ (.error 500)).2.1 = .error 500 ∧
    isAuthenticated (authenticate ⟨none, none⟩ (.error 500)).1 = true ∧
    getUser (authenticate ⟨none, none⟩ (.error 500)).1 = none ∧
    (∀ remote, (readFileModel (isAuthenticated (authenticate ⟨none, none⟩ (.error 500)).1)
      remote).1 ≠ .error .notAuthenticated) ∧
    (∀ remote, (readFileModel (isAuthenticated (authenticate ⟨none, none⟩ (.error 500)).1)
      remote).2 = [.getContent])) :=
  ⟨rfl, c10_authenticate_not_atomic ⟨none, none⟩ 500 rfl⟩

theorem replaceFirstL_startsWith (l pat : List Char) (h : startsWithL l pat = true) :
    replaceFirstL l pat = l.drop pat.length := by
  cases l with
  | nil =>
    cases pat with
    | nil => rfl
    | cons p ps => simp [startsWithL] at h
  | cons c rest =>
    simp only [replaceFirstL]
    rw [if_pos h]

theorem cleanPathL_eq_specNormalize (path : List Char) : cleanPathL path = specNormalize path := by
  unfold cleanPathL specNormalize
  by_cases h1 : startsWithL path ['/'] = true
  · simp only [h1, if_true]
    by_cases h2 : startsWithL (path.drop 1) scNeedle = true
    · simp only [h2, if_true]
      rw [replaceFirstL_startsWith _ _ h2]
    · simp only [h2, if_false, Bool.false_eq_true]
  · simp only [h1, if_false, Bool.false_eq_true]
    by_cases h2 : startsWithL path scNeedle = true
    · simp only [h2, if_true]
      rw [replaceFirstL_startsWith _ _ h2]
    · simp only [h2, if_false, Bool.false_eq_true]

/-- Claim C5: loadCourseStructure with a file-system prefers the namespaced
manifest path over the legacy root path, probing exists before readFile;
returns the parsed YAML of the first existing path; returns the default empty
structure when neither exists; and returns the fixed error structure instead of
raising when exists, readFile or parsing throws. -/
theorem c5_loadCourseStructure (fs : FSModel) (parse : String → Except String YamlVal) :
    (∀ content v, fs.fsExists "src/content/course.yaml" = .ok true →
      fs.fsReadFile "src/content/course.yaml" = .ok content →
      parse content = .ok v →
      loadCourseStructureFS fs parse = v) ∧
    (∀ content v, fs.fsExists "src/content/course.yaml" = .ok false →
      fs.fsExists "course.yaml" = .ok true →
      fs.fsReadFile "course.yaml" = .ok content →
      parse content = .ok v →
      loadCourseStructureFS fs parse = v) ∧
    (fs.fsExists "src/content/course.yaml" = .ok false →
      fs.fsExists "course.yaml" = .ok false →
      loadCourseStructureFS fs parse = .struct defaultCourse) ∧
    (∀ e, fs.fsExists "src/content/course.yaml" = .error e →
      loadCourseStructureFS fs parse = .struct errorCourse) ∧
    (∀ e, fs.fsExists "src/content/course.yaml" = .ok true →
      fs.fsReadFile "src/content/course.yaml" = .error e →
      loadCourseStructureFS fs parse = .struct errorCourse) ∧
    (∀ content e, fs.fsExists "src/content/course.yaml" = .ok true →
      fs.fsReadFile "src/content/course.yaml" = .ok content →
      parse content = .error e →
      loadCourseStructureFS fs parse = .struct errorCourse) := by
  refine ⟨?_, ?_, ?_, ?_, ?_, ?_⟩
  · intro content v h1 h2 h3
    simp [loadCourseStructureFS, Bind.bind, Except.bind, Pure.pure, Except.pure, h1, h2, h3]
  · intro content v h1 h2 h3 h4
    simp [loadCourseStructureFS, Bind.bind, Except.bind, Pure.pure, Except.pure, h1, h2, h3, h4]
  · intro h1 h2
    simp [loadCourseStructureFS, Bind.bind, Except.bind, Pure.pure, Except.pure, h1, h2]
  · intro e h1
    simp [loadCourseStructureFS, Bind.bind, Except.bind, Pure.pure, Except.pure, h1]
  · intro e h1 h2
    simp [loadCourseStructureFS, Bind.bind, Except.bind, Pure.pure, Except.pure, h1, h2]
  · intro content e h1 h2 h3
    simp [loadCourseStructureFS, Bind.bind, Except.bind, Pure.pure, Except.pure, h1, h2, h3]

theorem c5_loadCourseStructure_witness :
    ((FSModel.mk (fun _ => .ok true) (fun p => .ok p)).fsExists "src/content/course.yaml" =
      .ok true) ∧
    ((FSModel.mk (fun _ => .ok true) (fun p => .ok p)).fsReadFile "src/content/course.yaml" =
      .ok "src/content/course.yaml") ∧
    (yamlScalarParse "src/content/course.yaml" = .ok (.other "src/content/course.yaml")) ∧
    loadCourseStructureFS (FSModel.mk (fun _ => .ok true) (fun p => .ok p)) yamlScalarParse =
      .other "src/content/course.yaml" :=
  ⟨rfl, rfl, rfl,
    (c5_loadCourseStructure (FSModel.mk (fun _ => .ok true) (fun p => .ok p)) yamlScalarParse).1
      "src/content/course.yaml" (.other "src/content/course.yaml") rfl rfl rfl⟩

/-- Claim C6 as stated is false on the code: with no file-system and no bundled
manifest, the bundled branch does not return the default structure — this
counterexample evaluates the branch with the js-yaml scalar model on an empty
module map and gets a value different from the default. -/
theorem c6_counterexample :
    loadCourseStructureBundled yamlScalarParse (fun _ => none) ≠
      Except.ok (YamlVal.struct defaultCourse) := by
  simp [loadCourseStructureBundled, yamlScalarParse, jsStringCoerce]

/-- Claim C6 amended: with no file-system and no bundled manifest, the branch
coerces the absent module value to the string "undefined" and returns its YAML
parse — under js-yaml the scalar string "undefined" — without throwing; it does
not construct the default structure. -/
theorem c6_amended (modules : String → Option String)
    (h : modules "../content/course.yaml" = none) :
    loadCourseStructureBundled yamlScalarParse modules =
      Except.ok (YamlVal.other "undefined") := by
  simp [loadCourseStructureBundled, yamlScalarParse, jsStringCoerce, h]

theorem c6_amended_witness :
    ((fun _ => none : String → Option String) "../content/course.yaml" = none) ∧
    loadCourseStructureBundled yamlScalarParse (fun _ => none) =
      Except.ok (YamlVal.other "undefined") :=
  ⟨rfl, c6_amended (fun _ => none) rfl⟩

/-- Claim C7: loadBundledFile normalizes its input exactly as the spec words it
(one leading slash, a leading namespaced fragment, a trailing mdx extension all
stripped), then returns the bundled content at the first candidate if present,
else falls through to the index candidate, never throwing. -/
theorem c7_loadBundledFile (modules : List Char → Option String) (path : List Char) :
    cleanPathL path = specNormalize path ∧
    (∀ v, modules (("../content/").toList ++ specNormalize path ++ (".mdx").toList) = some v →
      loadBundledFile modules path = some v) ∧
    (modules (("../content/").toList ++ specNormalize path ++ (".mdx").toList) = none →
      loadBundledFile modules path =
        modules (("../content/").toList ++ specNormalize path ++ ("/index.mdx").toList)) := by
  have hnorm := cleanPathL_eq_specNormalize path
  refine ⟨hnorm, ?_, ?_⟩
  · intro v h
    unfold loadBundledFile
    rw [hnorm, h]
  · intro h
    unfold loadBundledFile
    rw [hnorm, h]

theorem c7_loadBundledFile_witness :
    ((fun k => if k = ("../content/a1/lesson-1.mdx").toList then some "LESSON" else none)
      (("../content/").toList ++ specNormalize (("src/content/a1/lesson-1.mdx").toList) ++
        (".mdx").toList) = some "LESSON") ∧
    loadBundledFile
      (fun k => if k = ("../content/a1/lesson-1.mdx").toList then some "LESSON" else none)
      (("src/content/a1/lesson-1.mdx").toList) = some "LESSON" :=
  ⟨by decide,
    (c7_loadBundledFile
      (fun k => if k = ("../content/a1/lesson-1.mdx").toList then some "LESSON" else none)
      (("src/content/a1/lesson-1.mdx").toList)).2.1 "LESSON" (by decide)⟩

theorem lookupA_eraseKey {α : Type} (l : List (String × α)) (k key : String) :
    lookupA (eraseKey l k) key = if key = k then none else lookupA l key := by
  induction l with
  | nil => simp [eraseKey, lookupA]
  | cons p t ih =>
    obtain ⟨k1, v⟩ := p
    simp only [eraseKey, lookupA]
    by_cases h1 : k1 = k
    · rw [if_pos h1, ih]
      by_cases h2 : key = k
      · rw [if_pos h2, if_pos h2]
      · rw [if_neg h2, if_neg h2]
        rw [if_neg (fun hh : k1 = key => h2 (hh ▸ h1))]
    · rw [if_neg h1]
      simp only [lookupA]
      by_cases h3 : k1 = key
      · rw [if_pos h3, if_pos h3, if_neg (fun hh : key = k => h1 (h3.symm ▸ hh))]
      · rw [if_neg h3, if_neg h3, ih]

theorem lookupA_append {α : Type} (l1 l2 : List (String × α)) (key : String) :
    lookupA (l1 ++ l2) key =
      match lookupA l1 key with
      | some v => some v
      | none => lookupA l2 key := by
  induction l1 with
  | nil => rfl
  | cons p t ih =>
    obtain ⟨k1, v⟩ := p
    simp only [List.cons_append, lookupA]
    by_cases h : k1 = key <;> simp [h, ih]

theorem lookupA_applyTreeItem (entries : List (String × TreeItem)) (it : TreeItem) (p : String) :
    lookupA (applyTreeItem entries it) p =
      if p = it.path then (match it.sha with | some none => none | _ => some it)
      else lookupA entries p := by
  rcases hsha : it.sha with _ | sh
  · simp only [applyTreeItem, hsha]
    rw [lookupA_append, lookupA_eraseKey]
    by_cases h : p = it.path
    · simp [h, lookupA]
    · simp only [h, if_false]
      simp only [lookupA]
      rw [if_neg (fun hh : it.path = p => h (hh.symm))]
      cases lookupA entries p <;> rfl
  · rcases sh with _ | sv
    · simp only [applyTreeItem, hsha]
      rw [lookupA_eraseKey]
    · simp only [applyTreeItem, hsha]
      rw [lookupA_append, lookupA_eraseKey]
      by_cases h : p = it.path
      · simp [h, lookupA]
      · simp only [h, if_false]
        simp only [lookupA]
        rw [if_neg (fun hh : it.path = p => h (hh.symm))]
        cases lookupA entries p <;> rfl

theorem lookupA_layerTree (items : List TreeItem) :
    ∀ (base : List (String × TreeItem)) (p : String),
      lookupA (layerTree base items) p = treeSpecGet base items p := by
  induction items with
  | nil => intro base p; rfl
  | cons it rest ih =>
    intro base p
    show lookupA (layerTree (applyTreeItem base it) rest) p = _
    rw [ih (applyTreeItem base it) p]
    unfold treeSpecGet
    simp only [List.foldl_cons]
    rw [lookupA_applyTreeItem]

/-- Claim C8: a successful commitMulti with no concurrent writer performs the
five remote calls in order, leaves the branch ref on exactly one new commit
whose sole parent is the tip read in step one and whose message is the given
message, and whose tree is the supplied items layered on the prior tip base
tree — containing, path by path, exactly the union of the base tree and the
items as each encodes an addition, update or deletion. -/
theorem c8_commitMulti (st : GitObjStore) (treeItems : List TreeItem)
    (message branch : String) (tip : String) (cd : GitCommit)
    (baseEntries : List (String × TreeItem))
    (h1 : lookupA st.refs ("heads/" ++ branch) = some tip)
    (h2 : lookupA st.commits tip = some cd)
    (h3 : lookupA st.trees cd.tree = some baseEntries) :
    ∃ st2, commitMultiModel true st treeItems message branch =
      (.ok st2, [.getRef, .getCommit, .createTree, .createCommit, .updateRef]) ∧
      lookupA st2.refs ("heads/" ++ branch) = some (freshSha (st.fresh + 1)) ∧
      (∀ r, r ≠ "heads/" ++ branch → lookupA st2.refs r = lookupA st.refs r) ∧
      st2.commits = (freshSha (st.fresh + 1),
        ⟨freshSha st.fresh, [tip], message⟩) :: st.commits ∧
      lookupA st2.commits (freshSha (st.fresh + 1)) =
        some ⟨freshSha st.fresh, [tip], message⟩ ∧
      lookupA st2.trees (freshSha st.fresh) = some (layerTree baseEntries treeItems) ∧
      (∀ p, lookupA (layerTree baseEntries treeItems) p = treeSpecGet baseEntries treeItems p) := by
  refine ⟨GitObjStore.mk
      (("heads/" ++ branch, freshSha (st.fresh + 1)) :: eraseKey st.refs ("heads/" ++ branch))
      ((freshSha (st.fresh + 1), ⟨freshSha st.fresh, [tip], message⟩) :: st.commits)
      ((freshSha st.fresh, layerTree baseEntries treeItems) :: st.trees)
      (st.fresh + 2),
    ?_, ?_, ?_, rfl, ?_, ?_, fun p => lookupA_layerTree treeItems baseEntries p⟩
  · simp [commitMultiModel, h1, h2, h3]
  · simp [lookupA]
  · intro r hr
    simp only [lookupA]
    rw [if_neg (fun hh : "heads/" ++ branch = r => hr hh.symm)]
    rw [lookupA_eraseKey, if_neg hr]
  · simp [lookupA]
  · simp [lookupA]

theorem c8_commitMulti_witness :
    (lookupA (GitObjStore.mk [("heads/main", "t0")] [("t0", ⟨"tr0", [], "init"⟩)]
      [("tr0", [])] 0).refs ("heads/" ++ "main") = some "t0") ∧
    (lookupA (GitObjStore.mk [("heads/main", "t0")] [("t0", ⟨"tr0", [], "init"⟩)]
      [("tr0", [])] 0).commits "t0" = some ⟨"tr0", [], "init"⟩) ∧
    (lookupA (GitObjStore.mk [("heads/main", "t0")] [("t0", ⟨"tr0", [], "init"⟩)]
      [("tr0", [])] 0).trees (GitCommit.mk "tr0" [] "init").tree = some []) ∧
    ∃ st2, commitMultiModel true
      (GitObjStore.mk [("heads/main", "t0")] [("t0", ⟨"tr0", [], "init"⟩)] [("tr0", [])] 0)
      [⟨"a.md", .m100644, .blob, some "hello", none⟩] "add a" "main" =
      (.ok st2, [.getRef, .getCommit, .createTree, .createCommit, .updateRef]) ∧
      lookupA st2.refs ("heads/" ++ "main") = some (freshSha (0 + 1)) ∧
      (∀ r, r ≠ "heads/" ++ "main" → lookupA st2.refs r =
        lookupA (GitObjStore.mk [("heads/main", "t0")] [("t0", ⟨"tr0", [], "init"⟩)]
          [("tr0", [])] 0).refs r) ∧
      st2.commits = (freshSha (0 + 1), ⟨freshSha 0, ["t0"], "add a"⟩) ::
        (GitObjStore.mk [("heads/main", "t0")] [("t0", ⟨"tr0", [], "init"⟩)]
          [("tr0", [])] 0).commits ∧
      lookupA st2.commits (freshSha (0 + 1)) = some ⟨freshSha 0, ["t0"], "add a"⟩ ∧
      lookupA st2.trees (freshSha 0) =
        some (layerTree [] [⟨"a.md", .m100644, .blob, some "hello", none⟩]) ∧
      (∀ p, lookupA (layerTree [] [⟨"a.md", .m100644, .blob, some "hello", none⟩]) p =
        treeSpecGet [] [⟨"a.md", .m100644, .blob, some "hello", none⟩] p) :=
  ⟨by decide, by decide, by decide,
    c8_commitMulti (GitObjStore.mk [("heads/main", "t0")] [("t0", ⟨"tr0", [], "init"⟩)]
        [("tr0", [])] 0)
      [⟨"a.md", .m100644, .blob, some "hello", none⟩] "add a" "main" "t0" ⟨"tr0", [], "init"⟩ []
      (by decide) (by decide) (by decide)⟩

end DeutschBuch
